import Mathlib

/-!
# Verification of the Availability & Scheduling Engine

Shallow embedding of the calendar-service core in Lean 4, with theorems
settling the specification claims about it.

## Time model

Instants are absolute times in milliseconds since the Unix epoch,
represented as `Int` (the value of a JavaScript `Date`).  IANA time zones
are modelled as fixed UTC offsets in minutes (the value the code extracts
from `Intl.DateTimeFormat`'s `GMT±HH:MM` label at the instant in
question); daylight-saving transitions are outside the scope of the
claims settled here, so an offset is constant over a run.  The server's
own local zone (used implicitly by JavaScript's `Date.prototype.setHours`
/ `setDate` and `getFullYear`-style accessors) is a separate offset
parameter `sOff`, since the source mixes `Intl`-based wall clocks in the
policy zone with server-local mutators.

Wall-clock times of day ("HH:MM" strings in the source) are modelled as
minutes after midnight (`Nat`): for zero-padded "HH:MM" strings,
JavaScript's lexicographic string comparison coincides with numeric
comparison of the corresponding minute counts, so the translation
preserves every comparison the code performs.
-/

set_option maxRecDepth 8000

namespace CalendarService

/-! ### JavaScript string primitives

Executable models of the JavaScript string operations the source uses,
implemented structurally over character lists (all inputs here are
ASCII, where JavaScript's UTF-16 code-unit order agrees with code-point
order). -/

/-- JavaScript `<` on strings: lexicographic by code unit. -/
def lexLtB : List Char → List Char → Bool
  | [], [] => false
  | [], _ :: _ => true
  | _ :: _, [] => false
  | a :: as, b :: bs => if a < b then true else if a == b then lexLtB as bs else false

/-- JavaScript `a < b` on strings. -/
def strLt (a b : String) : Bool := lexLtB a.data b.data

/-- JavaScript `a <= b` on strings. -/
def strLe (a b : String) : Bool := !lexLtB b.data a.data

/-- ASCII lower-casing of one character (`String.prototype.toLowerCase`
restricted to the ASCII inputs at hand). -/
def lowerChar (c : Char) : Char :=
  if 'A' ≤ c ∧ c ≤ 'Z' then Char.ofNat (c.toNat + 32) else c

/-- `String.prototype.trim`: strip leading and trailing whitespace. -/
def trimList (cs : List Char) : List Char :=
  ((cs.dropWhile Char.isWhitespace).reverse.dropWhile Char.isWhitespace).reverse

/-- `input.toLowerCase().trim()`. -/
def normalizeInput (s : String) : String := String.mk (trimList (s.data.map lowerChar))

/-- JavaScript `s.includes(pat)` for a nonempty literal pattern. -/
def containsSubL : List Char → List Char → Bool
  | [], pat => pat.isEmpty
  | c :: cs, pat => pat.isPrefixOf (c :: cs) || containsSubL cs pat

/-- `s.includes(pat)` on strings. -/
def containsSub (s pat : String) : Bool := containsSubL s.data pat.data

/-- JavaScript `s.replace(pat, '')` for a literal pattern: remove the
first occurrence. -/
def removeFirstSubL (pat : List Char) : List Char → List Char
  | [] => []
  | c :: cs =>
    if pat.isPrefixOf (c :: cs) then (c :: cs).drop pat.length
    else c :: removeFirstSubL pat cs

/-- JavaScript `s.split('|')`. -/
def splitPipe (cs : List Char) : List (List Char) :=
  cs.foldr
    (fun c acc =>
      if c = '|' then [] :: acc
      else
        match acc with
        | piece :: rest => (c :: piece) :: rest
        | [] => [[c]])
    [[]]

/-- Milliseconds in one minute. -/
def msPerMinute : Int := 60000

/-- Milliseconds in one day. -/
def msPerDay : Int := 86400000

/-- The civil-day number (days since 1970-01-01) of instant `t` as seen on
a wall clock at UTC offset `offMin` minutes. -/
def wallDay (offMin t : Int) : Int := (t + offMin * 60000) / 86400000

/-- The minute of the day (0–1439) of instant `t` on a wall clock at UTC
offset `offMin` minutes.  Models the `hour`/`minute` parts returned by
`Intl.DateTimeFormat` in `getTimeInTimezone` (google-calendar.ts). -/
def minuteOfDay (offMin t : Int) : Nat :=
  ((((t + offMin * 60000) / 60000) % 1440)).toNat

/-- The day of week (0 = Sunday … 6 = Saturday) of instant `t` on a wall
clock at UTC offset `offMin` minutes; 1970-01-01 was a Thursday. -/
def dayOfWeek (offMin t : Int) : Nat := ((wallDay offMin t + 4) % 7).toNat

/-- `date.setHours(h, m, 0, 0)` in the server's local zone `sOff`:
same server-local civil day, time of day set to `mins` minutes after
midnight, seconds and milliseconds zeroed. -/
def setHoursServer (sOff t : Int) (mins : Nat) : Int :=
  wallDay sOff t * 86400000 + (mins : Int) * 60000 - sOff * 60000

/-! ## Slot-search engine (src/src/lib/google-calendar.ts) -/

/-- A busy period reported by the external calendar
(`freebusy.query` response).  The source receives the endpoints as
optional RFC3339 strings and converts them with `new Date(...)`; the
embedding carries the resulting instants directly, with `none` standing
for an absent (`null`/`undefined`/empty) endpoint, which the source
skips. -/
structure BusyPeriod where
  start : Option Int
  stop : Option Int
deriving DecidableEq, Repr

/-- A returned time slot (`TimeSlot` in the source; the derived RFC3339
presentation strings are omitted). -/
structure TimeSlot where
  start : Int
  stop : Int
deriving DecidableEq, Repr

/-- `isSlotBusy` (google-calendar.ts:150): a slot `[slotStart, slotEnd)`
conflicts iff some busy period with both endpoints present satisfies
`slotStart < busyEnd && slotEnd > busyStart`. -/
def isSlotBusy (slotStart slotEnd : Int) (busyPeriods : List BusyPeriod) : Bool :=
  busyPeriods.any fun busy =>
    match busy.start, busy.stop with
    | some busyStart, some busyEnd => decide (slotStart < busyEnd) && decide (slotEnd > busyStart)
    | _, _ => false

/-- A weekly business-hours rule (`BusinessHoursRule` in the source):
applicable days of week, and start/end times of day.  The source stores
the times as "HH:MM" strings and compares them lexicographically; the
embedding uses the corresponding minute counts (see the header note). -/
structure BusinessHoursRule where
  days : List Nat
  start : Nat
  stop : Nat
deriving DecidableEq, Repr

/-- `BusinessHours` in the source: a wrapper holding the rule list. -/
structure BusinessHours where
  rules : List BusinessHoursRule
deriving DecidableEq, Repr

/-- The hard-coded fallback rules in `isWithinBusinessHours`
(google-calendar.ts:202): Monday–Friday 09:00–17:00. -/
def defaultRules : List BusinessHoursRule :=
  [{ days := [1, 2, 3, 4, 5], start := 540, stop := 1020 }]

/-- Result of `isWithinBusinessHours`: `within`, and when not within, the
suggested next start time of day and whether it is on the next day. -/
structure BusinessCheck where
  within : Bool
  nextStart : Option Nat
  nextDay : Bool
deriving DecidableEq, Repr

/-- First `for` loop of `isWithinBusinessHours` (google-calendar.ts:211):
scan the rules in order; on a rule for today's weekday, return "within"
if the current time is inside `[start, stop)`, or the rule's start if the
current time is before it; otherwise keep scanning.  `none` means the
loop fell through. -/
def bhFirstPass (dow cur : Nat) : List BusinessHoursRule → Option BusinessCheck
  | [] => none
  | rule :: rest =>
    if rule.days.contains dow then
      if cur ≥ rule.start && cur < rule.stop then
        some { within := true, nextStart := none, nextDay := false }
      else if cur < rule.start then
        some { within := false, nextStart := some rule.start, nextDay := false }
      else bhFirstPass dow cur rest
    else bhFirstPass dow cur rest

/-- Look-ahead loop of `isWithinBusinessHours` (google-calendar.ts:226):
for `daysAhead` in the given list, return the start time of the first
rule applicable to `(dow + daysAhead) % 7`. -/
def bhLookAheadAux (rules : List BusinessHoursRule) (dow : Nat) : List Nat → Option Nat
  | [] => none
  | daysAhead :: rest =>
    match rules.find? (fun rule => rule.days.contains ((dow + daysAhead) % 7)) with
    | some rule => some rule.start
    | none => bhLookAheadAux rules dow rest

/-- The look-ahead over the next 1–7 days. -/
def bhLookAhead (rules : List BusinessHoursRule) (dow : Nat) : Option Nat :=
  bhLookAheadAux rules dow [1, 2, 3, 4, 5, 6, 7]

/-- The rule list actually used, `businessHours?.rules || defaultRules`
(google-calendar.ts:206): an *absent* `businessHours` yields the default
Monday–Friday 09:00–17:00 rules, while a present-but-empty `rules` array
is kept as is (in JavaScript `[] || default` evaluates to `[]`). -/
def bhRules (businessHours : Option BusinessHours) : List BusinessHoursRule :=
  (businessHours.map BusinessHours.rules).getD defaultRules

/-- `isWithinBusinessHours` (google-calendar.ts:196).  `off` is the
policy zone's UTC offset (the zone passed to `Intl.DateTimeFormat`). -/
def isWithinBusinessHours (off t : Int) (businessHours : Option BusinessHours) :
    BusinessCheck :=
  match bhFirstPass (dayOfWeek off t) (minuteOfDay off t) (bhRules businessHours) with
  | some check => check
  | none =>
    match bhLookAhead (bhRules businessHours) (dayOfWeek off t) with
    | some nextStart => { within := false, nextStart := some nextStart, nextDay := true }
    | none => { within := false, nextStart := some 540, nextDay := true }

/-- One run of the `while` loop of `findAlternativeSlots`
(google-calendar.ts:261), with explicit fuel: the source loop has **no**
iteration counter, so the embedding is fuel-indexed; the returned `Bool`
is `true` when the loop exited through its own guard and `false` when the
fuel ran out first (so `false` for every fuel value means the source loop
never terminates).  `sOff` is the server's local offset (used by
`setHours`/`setDate`), `off` the policy zone's offset (used by the
`Intl`-based business-hours check).  Slots are accumulated in reverse. -/
def findAlternativeSlotsGo (sOff off durMs : Int) (busy : List BusyPeriod)
    (maxSlots : Nat) (bh : Option BusinessHours) (maxCheckTime : Int) :
    Nat → Int → List TimeSlot → Bool × List TimeSlot
  | 0, _, acc => (false, acc.reverse)
  | fuel + 1, checkTime, acc =>
    if acc.length < maxSlots ∧ checkTime < maxCheckTime then
      let businessCheck := isWithinBusinessHours off checkTime bh
      if businessCheck.within then
        let slotEnd := checkTime + durMs
        let acc' := if isSlotBusy checkTime slotEnd busy then acc else ⟨checkTime, slotEnd⟩ :: acc
        findAlternativeSlotsGo sOff off durMs busy maxSlots bh maxCheckTime fuel
          (checkTime + 30 * 60000) acc'
      else
        let t1 := if businessCheck.nextDay then checkTime + 86400000 else checkTime
        let t2 := match businessCheck.nextStart with
          | some mins => setHoursServer sOff t1 mins
          | none => t1
        findAlternativeSlotsGo sOff off durMs busy maxSlots bh maxCheckTime fuel t2 acc
    else (true, acc.reverse)

/-- `findAlternativeSlots` (google-calendar.ts:243): step candidate start
times from `startFrom`, skipping outside business hours, collecting up to
`maxSlots` free slots, with a horizon of `startFrom` plus three days
(`maxCheckTime`; `setDate(+3)` adds exactly three civil days, which under
a fixed offset is 3 × 86400000 ms). -/
def findAlternativeSlotsTS (sOff off startFrom durationMinutes : Int)
    (busy : List BusyPeriod) (maxSlots : Nat) (bh : Option BusinessHours)
    (fuel : Nat) : Bool × List TimeSlot :=
  findAlternativeSlotsGo sOff off (durationMinutes * 60000) busy maxSlots bh
    (startFrom + 3 * 86400000) fuel startFrom []

/-! ## Blocking policy (isTimeBlocked, src/unnamed/part_007 = dist/lib/supabase.js)

`isTimeBlocked` first renders the instant's wall-clock fields in the
client's zone with `Intl.DateTimeFormat('en-CA', …)` and then works
purely on those fields.  The embedding cuts at that formatter boundary:
a `WallParts` record holds the numeric field values the formatter
produced, and `isTimeBlocked` rebuilds the zero-padded strings and
performs exactly the source's string comparisons. -/

/-- Two-digit zero padding, as produced by the `2-digit` fields of
`Intl.DateTimeFormat('en-CA', …)`. -/
def pad2 (n : Nat) : String := if n < 10 then "0" ++ toString n else toString n

/-- The wall-clock field values of an instant as rendered in the
client's zone (year, 1-based month, day, 24-hour hour, minute, and day
of week with 0 = Sunday). -/
structure WallParts where
  year : Nat
  month : Nat
  day : Nat
  hour : Nat
  minute : Nat
  dayOfWeek : Nat
deriving DecidableEq, Repr

/-- `dateStr` of part_007:321: `YYYY-MM-DD` in the client timezone. -/
def dateStrOf (p : WallParts) : String :=
  toString p.year ++ "-" ++ pad2 p.month ++ "-" ++ pad2 p.day

/-- `monthDay` of part_007:322: `MM-DD`. -/
def monthDayOf (p : WallParts) : String := pad2 p.month ++ "-" ++ pad2 p.day

/-- `timeStr` of part_007:323: `HH:MM` in the client timezone. -/
def timeStrOf (p : WallParts) : String := pad2 p.hour ++ ":" ++ pad2 p.minute

/-- A vacation entry: a date range with `start`/`end` date strings. -/
structure DateRange where
  start : String
  stop : String
deriving DecidableEq, Repr

/-- A business-hours rule as stored with the client: days of week and
"HH:MM" start/end strings (compared lexicographically by the source). -/
structure HoursRuleStr where
  days : List Nat
  start : String
  stop : String
deriving DecidableEq, Repr

/-- The client-policy fields read by `isTimeBlocked`.  `none` models a
missing (`null`/`undefined`) column; `business_hours` is collapsed to
its `rules` list. -/
structure ClientPolicy where
  vacations : Option (List DateRange)
  excluded_dates : Option (List String)
  holidays : Option (List String)
  business_hours : Option (List HoursRuleStr)
deriving DecidableEq, Repr

/-- The result of `isTimeBlocked`: `{ blocked, reason? }`. -/
structure BlockResult where
  blocked : Bool
  reason : Option String
deriving DecidableEq, Repr

/-- Vacation containment test (part_007:332): `dateStr >= vacation.start
&& dateStr <= vacation.end` — inclusive at both endpoints. -/
def vacationMatches (dateStr : String) (v : DateRange) : Bool :=
  strLe v.start dateStr && strLe dateStr v.stop

/-- Excluded-date test (part_007:339): a string containing `|` is a
"start|end" range checked inclusively; otherwise exact date match. -/
def excludedMatches (dateStr : String) (excluded : String) : Bool :=
  if excluded.data.contains '|' then
    let pieces := splitPipe excluded.data
    strLe (String.mk (pieces.getD 0 [])) dateStr &&
      strLe dateStr (String.mk (pieces.getD 1 []))
  else excluded == dateStr

/-- Business-hours rule test (part_007:364): the day must be listed and
the time must satisfy `start ≤ timeStr < stop` (half-open). -/
def hoursRuleMatches (dow : Nat) (timeStr : String) (rule : HoursRuleStr) : Bool :=
  if !rule.days.contains dow then false
  else if strLt timeStr rule.start || !strLt timeStr rule.stop then false
  else true

/-- `isTimeBlocked` (part_007:300): first-match evaluation of vacation
ranges, excluded dates, holidays, then business-hours rules, returning
the first matching check's reason.  A `find?` over a list models each
early-returning `for` loop of the source; a `none` policy field iterates
an empty list, exactly like the source's truthiness guards. -/
def isTimeBlocked (p : WallParts) (client : ClientPolicy) : BlockResult :=
  let dateStr := dateStrOf p
  match (client.vacations.getD []).find? (vacationMatches dateStr) with
  | some _ => { blocked := true, reason := some "on vacation" }
  | none =>
  match (client.excluded_dates.getD []).find? (excludedMatches dateStr) with
  | some _ => { blocked := true, reason := some "date excluded" }
  | none =>
  if (client.holidays.getD []).contains (monthDayOf p) then
    { blocked := true, reason := some "holiday" }
  else
    match client.business_hours with
    | some rules =>
      if rules.length > 0 then
        match rules.find? (hoursRuleMatches p.dayOfWeek (timeStrOf p)) with
        | some _ => { blocked := false, reason := none }
        | none => { blocked := true, reason := some "outside business hours" }
      else { blocked := false, reason := none }
    | none => { blocked := false, reason := none }

/-- Some vacation range contains the rendered date. -/
def vacationHit (p : WallParts) (client : ClientPolicy) : Bool :=
  (client.vacations.getD []).any (vacationMatches (dateStrOf p))

/-- Some excluded date or range matches the rendered date. -/
def excludedHit (p : WallParts) (client : ClientPolicy) : Bool :=
  (client.excluded_dates.getD []).any (excludedMatches (dateStrOf p))

/-- The holiday list contains the rendered month-day. -/
def holidayHit (p : WallParts) (client : ClientPolicy) : Bool :=
  (client.holidays.getD []).contains (monthDayOf p)

/-- The business-hours rule list is nonempty and no rule admits the
rendered day-of-week and time. -/
def outsideHoursHit (p : WallParts) (client : ClientPolicy) : Bool :=
  match client.business_hours with
  | some rules =>
    rules.length > 0 && !(rules.any (hoursRuleMatches p.dayOfWeek (timeStrOf p)))
  | none => false

/-! ## Calendar reconciliation (src/unnamed/part_002 = routes/webhook-google.ts)

The appointment store is modelled as the list of appointments created so
far (only the external calendar event id and the optionally linked lead
matter to the claims); `findLeadByEmail` is an abstract collaborator
function from attendee email to an optional lead id. -/

/-- An event attendee as read by the reconciler. -/
structure Attendee where
  email : Option String
  self : Bool
deriving DecidableEq, Repr

/-- An event boundary (`start`/`end` objects of a Google event). -/
structure EventTime where
  dateTime : Option String
  timeZone : Option String
deriving DecidableEq, Repr

/-- The event creator field. -/
structure Creator where
  email : Option String
  self : Bool
deriving DecidableEq, Repr

/-- A changed calendar event, with exactly the fields
`processSingleEvent` reads.  `stop` embeds the source's `end` field. -/
structure CalEvent where
  id : Option String
  status : Option String
  start : Option EventTime
  stop : Option EventTime
  attendees : Option (List Attendee)
  creator : Option Creator
deriving DecidableEq, Repr

/-- An internal appointment record, keyed by the external calendar
event id (`external_calendar_id`), optionally linked to a lead. -/
structure Appointment where
  externalCalendarId : String
  leadId : Option String
deriving DecidableEq, Repr

/-- JavaScript truthiness of an optional string: `null`, `undefined`
and the empty string are falsy. -/
def optStrTruthy : Option String → Bool
  | some s => s != ""
  | none => false

/-- `getAppointmentByCalendarEventId` (part_007:234): look up an
appointment by its external calendar event id. -/
def getAppointmentByCalendarEventId (store : List Appointment) (eventId : String) :
    Option Appointment :=
  store.find? (fun a => a.externalCalendarId == eventId)

/-- The attendee filter of part_002:174: has a (truthy) email and is not
the calendar owner. -/
def isExternalAttendee (a : Attendee) : Bool := optStrTruthy a.email && !a.self

/-- `processSingleEvent` (part_002:144): skip events without an id,
cancelled events, all-day/untimed events, events already linked to an
appointment, and events with no identifiable external participant;
otherwise create an appointment keyed by the event id, linking a lead
matched by the participant's email when one exists. -/
def processSingleEvent (findLeadByEmail : String → Option String) (event : CalEvent)
    (store : List Appointment) : List Appointment :=
  match event.id with
  | none => store
  | some eventId =>
    if eventId = "" then store
    else if event.status == some "cancelled" then store
    else
      match event.start, event.stop with
      | some st, some en =>
        if !optStrTruthy st.dateTime || !optStrTruthy en.dateTime then store
        else
          match getAppointmentByCalendarEventId store eventId with
          | some _ => store
          | none =>
            let externalAttendees := (event.attendees.getD []).filter isExternalAttendee
            if externalAttendees.isEmpty &&
                (!optStrTruthy (event.creator.bind Creator.email) ||
                  (event.creator.map Creator.self).getD false) then
              store
            else
              let attendeeEmail :=
                match externalAttendees.head? with
                | some a => a.email
                | none => event.creator.bind Creator.email
              let leadId :=
                match attendeeEmail with
                | some email => if email = "" then none else findLeadByEmail email
                | none => none
              store ++ [{ externalCalendarId := eventId, leadId := leadId }]
      | _, _ => store

/-- The lead id `processSingleEvent` links: the first external
attendee's email, else the creator's email, looked up when truthy. -/
def pseLeadId (leads : String → Option String) (e : CalEvent) : Option String :=
  match (match ((e.attendees.getD []).filter isExternalAttendee).head? with
         | some a => a.email
         | none => e.creator.bind Creator.email) with
  | some email => if email = "" then none else leads email
  | none => none

/-- An event passes every state-independent skip check of
`processSingleEvent` (everything except the already-linked lookup): it
would create an appointment when run against a store not yet containing
its id. -/
def eventQualifies (event : CalEvent) : Bool :=
  match event.id with
  | none => false
  | some eventId =>
    eventId != "" && event.status != some "cancelled" &&
    (match event.start, event.stop with
     | some st, some en => optStrTruthy st.dateTime && optStrTruthy en.dateTime
     | _, _ => false) &&
    !(((event.attendees.getD []).filter isExternalAttendee).isEmpty &&
      (!optStrTruthy (event.creator.bind Creator.email) ||
        (event.creator.map Creator.self).getD false))

/-- The per-page event loop of `processCalendarChanges` (part_002:117):
process the events of one page in order, threading the store. -/
def processPage (findLeadByEmail : String → Option String) (events : List CalEvent)
    (store : List Appointment) : List Appointment :=
  events.foldl (fun acc event => processSingleEvent findLeadByEmail event acc) store

/-- The number of stored appointments linked to a given external
calendar event id. -/
def countId (store : List Appointment) (eventId : String) : Nat :=
  (store.filter (fun a => a.externalCalendarId == eventId)).length

/-- A Google API error as inspected by `isGoogleApiError` (only the
numeric `code` matters). -/
structure GError where
  code : Int
deriving DecidableEq, Repr

/-- One page of the `events.list` response: the changed events, and the
optional next sync/page tokens (`none` embeds the `|| undefined`
collapse of absent or empty tokens). -/
structure EventsPage where
  items : List CalEvent
  nextSyncToken : Option String
  nextPageToken : Option String
deriving Repr

/-- How a reconciliation pass ends: normal return, or an error
propagated (re-thrown) to the caller. -/
inductive SyncOutcome where
  | ok : SyncOutcome
  | err : GError → SyncOutcome
deriving DecidableEq, Repr

/-- The paging loop of `processCalendarChanges` (part_002:85), with the
provider's successive responses given as a list: each entry is either a
page or the error the `events.list` call threw.  Returns the outcome,
the stored sync token after the pass (the token is persisted only after
all pages succeed; a 410 error clears it; any other error leaves it
unchanged and propagates), and the appointment store (pages processed
before a failure keep their effects). -/
def processCalendarChangesRun (findLeadByEmail : String → Option String)
    (storedToken : Option String) :
    List (Except GError EventsPage) → List Appointment →
      SyncOutcome × Option String × List Appointment
  | [], store => (SyncOutcome.ok, storedToken, store)
  | Except.error e :: _, store =>
    if e.code = 410 then (SyncOutcome.ok, none, store)
    else (SyncOutcome.err e, storedToken, store)
  | Except.ok page :: rest, store =>
    let store' := processPage findLeadByEmail page.items store
    match page.nextPageToken with
    | some _ => processCalendarChangesRun findLeadByEmail storedToken rest store'
    | none =>
      (SyncOutcome.ok,
        match page.nextSyncToken with
        | some tok => some tok
        | none => storedToken,
        store')

/-! ## Time-expression parser (src/unnamed/part_014 = dist/lib/date-parser.js)

The general date/time grammar (the external `chrono-node` library) is an
abstract collaborator: an oracle `String → List ChronoComponents`
standing for `chrono.parse(text, \x7b instant: referenceDate, timezone \x7d)`
at the call's fixed reference instant and zone.  A `ChronoComponents`
holds the values the code reads back with `parsed.get(...)` (chrono
returns the known or implied value of each component; the `|| fallback`
defaults in the source only fire on a null/zero component and are
collapsed into the oracle's values) together with `isCertain('hour')`.

JavaScript's `Date.UTC(year, month0, day, hour, minute)` is embedded by
`daysFromCivil`/`utcMs` (proleptic-Gregorian civil-from-days arithmetic,
with month overflow normalised exactly as `Date.UTC` does; the legacy
two-digit-year rule of `Date.UTC` is not modelled, as the grammar always
supplies full years).  Reading wall-clock fields back and feeding them
into `Date.UTC` round-trips, so consecutive extract-rebuild steps of the
source are embedded as arithmetic on civil-day numbers directly. -/

/-- Days from 1970-01-01 of the civil date `(y, m0 + 1, d)` with `m0`
the 0-based month as passed to `Date.UTC`; out-of-range months and days
are normalised by carrying, exactly like `Date.UTC`. -/
def daysFromCivil (y m0 d : Int) : Int :=
  let yAdj := y + m0 / 12
  let m := m0 % 12 + 1
  let yy := if m ≤ 2 then yAdj - 1 else yAdj
  let era := yy / 400
  let yoe := yy - era * 400
  let doy := (153 * (if m > 2 then m - 3 else m + 9) + 2) / 5 + d - 1
  let doe := yoe * 365 + yoe / 4 - yoe / 100 + doy
  era * 146097 + doe - 719468

/-- `Date.UTC(y, m0, d, hour, minute, 0, 0)` in milliseconds. -/
def utcMs (y m0 d hour minute : Int) : Int :=
  daysFromCivil y m0 d * 86400000 + hour * 3600000 + minute * 60000

/-- `createDateInTimezone` (part_014:35): extract the wall-clock civil
date of `base` in the zone, build the given wall-clock time of day on
that date with `Date.UTC`, and subtract the zone offset.  The
extract-rebuild pair collapses to the wall-day number of `base`. -/
def createDateInTimezone (off base hour minute : Int) : Int :=
  wallDay off base * 86400000 + hour * 3600000 + minute * 60000 - off * 60000

/-- The component values `parseDateTime` reads from one chrono result:
`get('year')`, 1-based `get('month')`, `get('day')`, `get('hour')`,
`get('minute')`, and `isCertain('hour')`. -/
structure ChronoComponents where
  year : Int
  month : Int
  day : Int
  hour : Int
  minute : Int
  hourCertain : Bool
deriving DecidableEq, Repr

/-- The result shape of `parseDateTime`: either a failure with an error
message, a fixed slot, or a range (presentation-only fields such as the
RFC3339 strings and `humanReadable` are omitted). -/
structure ParseResult where
  success : Bool
  error : Option String := none
  isRange : Bool := false
  needsTimeSpecified : Bool := false
  rangeStart : Option Int := none
  rangeEnd : Option Int := none
  slot : Option TimeSlot := none
deriving DecidableEq, Repr

/-- A JavaScript word character (`\w` of the regex `\b` boundary). -/
def isWordChar (c : Char) : Bool := c.isAlphanum || c == '_'

/-- Numeric value of a digit list. -/
def digitsVal (cs : List Char) : Nat :=
  cs.foldl (fun acc c => acc * 10 + (c.toNat - '0'.toNat)) 0

/-- Attempt to match the regex `after\s+(\d{1,2})\s*(am|pm)?` at the head
of the character list: returns the captured hour, the optional meridiem,
and the characters after the matched span (the greedy `\s*` is part of
the span even when no meridiem follows). -/
def afterMatchAt : List Char → Option (Nat × Option String × List Char)
  | 'a' :: 'f' :: 't' :: 'e' :: 'r' :: rest =>
    if (rest.takeWhile Char.isWhitespace).isEmpty then none
    else
      match rest.dropWhile Char.isWhitespace with
      | c1 :: r2 =>
        if c1.isDigit then
          let digitsRest : List Char × List Char :=
            match r2 with
            | c2 :: r3 => if c2.isDigit then ([c1, c2], r3) else ([c1], r2)
            | [] => ([c1], [])
          let r4 := digitsRest.2.dropWhile Char.isWhitespace
          let merRest : Option String × List Char :=
            match r4 with
            | 'a' :: 'm' :: r5 => (some "am", r5)
            | 'p' :: 'm' :: r5 => (some "pm", r5)
            | _ => (none, r4)
          some (digitsVal digitsRest.1, merRest.1, merRest.2)
        else none
      | [] => none
  | _ => none

/-- Leftmost match of `after\s+(\d{1,2})\s*(am|pm)?` in a character
list: the characters before the match, the captures, and the characters
after the match (so removing the match, as `String.replace` does, leaves
the outer two parts). -/
def findAfterMatch : List Char → Option (List Char × Nat × Option String × List Char)
  | [] => none
  | c :: cs =>
    match afterMatchAt (c :: cs) with
    | some (h, mer, rest) => some ([], h, mer, rest)
    | none =>
      match findAfterMatch cs with
      | some (pre, h, mer, rest) => some (c :: pre, h, mer, rest)
      | none => none

/-- The weekday words of the source's weekday regexes, in alternation
order. -/
def weekdayWords : List String :=
  ["monday", "tuesday", "wednesday", "thursday", "friday", "saturday", "sunday"]

/-- Test of `/^(monday|…|sunday)\b/i` on an already-lowercased string:
starts with a weekday word followed by a word boundary. -/
def startsWithWeekdayWord (s : String) : Bool :=
  weekdayWords.any fun w =>
    w.data.isPrefixOf s.data &&
      (match (s.data.drop w.data.length).head? with
       | some c => !isWordChar c
       | none => true)

/-- `isWeekdayOnly` of the main branch (part_014:106): weekday-prefixed
input not mentioning `last`, `past` or `previous`. -/
def isWeekdayOnlyMain (s : String) : Bool :=
  startsWithWeekdayWord s && !containsSub s "last" && !containsSub s "past" &&
    !containsSub s "previous"

/-- Test of the anchored `/^(monday|…|sunday)$/i` used on the stripped
date part in `parseAfterTime` and `parseTimeOfDay`. -/
def isWeekdayOnlyExact (s : String) : Bool := weekdayWords.contains s

/-- `TIME_RANGES` (part_014:54) in `Object.entries` order: keyword with
start and end hours. -/
def timeRanges : List (String × Nat × Nat) :=
  [("morning", 9, 12), ("afternoon", 12, 17), ("evening", 17, 20)]

/-- `parseAfterTime` (part_014:152): resolve the meridiem-adjusted hour
and the date part (chrono on the stripped text, with the next-occurrence
roll for a bare weekday and the reference's server-local date as
fallback), and return the open range up to `DEFAULT_END_HOUR` (20:00).
Always succeeds. -/
def parseAfterTime (oracle : String → List ChronoComponents) (sOff off ref : Int)
    (hourRaw : Nat) (meridiem : Option String) (withoutAfter : String) : ParseResult :=
  let hour0 : Int := hourRaw
  let hour :=
    if meridiem == some "pm" && hour0 < 12 then hour0 + 12
    else if meridiem == some "am" && hour0 == 12 then 0
    else if meridiem == none && hour0 < 12 && hour0 < 9 then hour0 + 12
    else hour0
  let dayCount : Int :=
    if withoutAfter ≠ "" then
      match oracle withoutAfter with
      | parsed :: _ =>
        let base := daysFromCivil parsed.year (parsed.month - 1) parsed.day
        if isWeekdayOnlyExact withoutAfter then
          if base * 86400000 < ref then base + 7 else base
        else base
      | [] => wallDay sOff ref
    else wallDay sOff ref
  let startUtc := dayCount * 86400000 + hour * 3600000
  let endUtc := dayCount * 86400000 + 20 * 3600000
  let rangeStart := startUtc - off * 60000
  let rangeEnd := endUtc - off * 60000
  { success := true, isRange := true, rangeStart := some rangeStart,
    rangeEnd := some rangeEnd, slot := some ⟨rangeStart, rangeEnd⟩ }

/-- `parseTimeOfDay` (part_014:225): like `parseAfterTime` but with the
keyword's fixed start/end hours. Always succeeds. -/
def parseTimeOfDay (oracle : String → List ChronoComponents) (sOff off ref : Int)
    (hStart hStop : Nat) (withoutPeriod : String) : ParseResult :=
  let dayCount : Int :=
    if withoutPeriod ≠ "" then
      match oracle withoutPeriod with
      | parsed :: _ =>
        let base := daysFromCivil parsed.year (parsed.month - 1) parsed.day
        if isWeekdayOnlyExact withoutPeriod then
          if base * 86400000 < ref then base + 7 else base
        else base
      | [] => wallDay sOff ref
    else wallDay sOff ref
  let startUtc := dayCount * 86400000 + (hStart : Int) * 3600000
  let endUtc := dayCount * 86400000 + (hStop : Int) * 3600000
  let rangeStart := startUtc - off * 60000
  let rangeEnd := endUtc - off * 60000
  { success := true, isRange := true, rangeStart := some rangeStart,
    rangeEnd := some rangeEnd, slot := some ⟨rangeStart, rangeEnd⟩ }

/-- `parseDateTime` (part_014:67).  `sOff` is the server's local UTC
offset (used by the `Date` accessors in the fallbacks), `off` the target
zone's offset, `ref` the reference instant.  The function is total: on
text that no branch recognises it returns `success := false` with a
descriptive message rather than raising. -/
def parseDateTime (oracle : String → List ChronoComponents) (sOff off : Int)
    (input : String) (ref : Int) : ParseResult :=
  let normalizedInput := normalizeInput input
  match findAfterMatch normalizedInput.data with
  | some (pre, hourRaw, mer, post) =>
    parseAfterTime oracle sOff off ref hourRaw mer (String.mk (trimList (pre ++ post)))
  | none =>
    match timeRanges.find? (fun pr => containsSub normalizedInput pr.1) with
    | some (period, hStart, hStop) =>
      parseTimeOfDay oracle sOff off ref hStart hStop
        (String.mk (trimList (removeFirstSubL period.data normalizedInput.data)))
    | none =>
      match oracle normalizedInput with
      | [] =>
        { success := false,
          error := some ("Could not parse date/time from: \"" ++ input ++ "\"") }
      | parsed :: _ =>
        let utcDate := utcMs parsed.year (parsed.month - 1) parsed.day parsed.hour
          parsed.minute
        let startDate := utcDate - off * 60000
        let rolled := isWeekdayOnlyMain normalizedInput && decide (startDate < ref)
        let utcDate' := if rolled then utcDate + 7 * 86400000 else utcDate
        let startDate' := utcDate' - off * 60000
        if !parsed.hourCertain then
          let dayStart := createDateInTimezone off startDate' 9 0
          let dayEnd := createDateInTimezone off startDate' 20 0
          { success := true, isRange := true, needsTimeSpecified := true,
            rangeStart := some dayStart, rangeEnd := some dayEnd,
            slot := some ⟨dayStart, dayEnd⟩ }
        else
          { success := true, isRange := false, slot := some ⟨startDate', startDate'⟩ }

/-- A chrono-oracle value for the input "wednesday" against the
reference instant Wed 2025-01-29 09:00 America/New_York: chrono-node's
casual weekday parser resolves a bare weekday with no modifier to that
weekday in the reference week — here the reference day itself,
2025-01-29 — with the hour not certain and the implied component value
12 (chrono's default implied time is noon), which is what
`parsed.get('hour')` returns. -/
def chronoWednesdayOracle : String → List ChronoComponents := fun s =>
  if s = "wednesday" then
    [{ year := 2025, month := 1, day := 29, hour := 12, minute := 0, hourCertain := false }]
  else []

/-! ## Theorems -/

theorem lexLtB_self : ∀ cs : List Char, lexLtB cs cs = false := by
  intro cs
  induction cs with
  | nil => rfl
  | cons a as ih => simp [lexLtB, ih]

theorem strLe_refl (s : String) : strLe s s = true := by
  simp [strLe, lexLtB_self]

theorem any_of_find?_eq_some {α} {p : α → Bool} {l : List α} {x : α}
    (h : l.find? p = some x) : l.any p = true :=
  List.any_eq_true.mpr ⟨x, List.mem_of_find?_eq_some h, List.find?_some h⟩

theorem any_eq_false_of_find?_eq_none {α} {p : α → Bool} {l : List α}
    (h : l.find? p = none) : l.any p = false := by
  have := List.find?_eq_none.mp h
  simp only [List.any_eq_false]
  intro x hx
  simp [this x hx]

theorem find?_ne_none_of_pred {α} {p : α → Bool} {l : List α} {x : α}
    (hx : x ∈ l) (hp : p x = true) : l.find? p ≠ none := by
  intro h
  exact absurd hp (by simp [List.find?_eq_none.mp h x hx])

theorem busyMatch_iff (s e : Int) (b : BusyPeriod) :
    (match b.start, b.stop with
      | some bs, some be => decide (s < be) && decide (e > bs)
      | _, _ => false) = true ↔
      ∃ bs be, b.start = some bs ∧ b.stop = some be ∧ s < be ∧ e > bs := by
  rcases b with ⟨bs?, be?⟩
  cases bs? <;> cases be? <;> simp

/-- C1: the slot-search overlap test `isSlotBusy` reports a conflict iff
some busy period with both endpoints present satisfies the strict test
`slotStart < busyEnd ∧ slotEnd > busyStart`; in particular a slot ending
exactly at a busy period's start, or starting exactly at its end, is
never flagged as a conflict. -/
theorem isSlotBusy_overlap_law :
    (∀ (slotStart slotEnd : Int) (busyPeriods : List BusyPeriod),
      isSlotBusy slotStart slotEnd busyPeriods = true ↔
        ∃ b ∈ busyPeriods, ∃ bs be, b.start = some bs ∧ b.stop = some be ∧
          slotStart < be ∧ slotEnd > bs) ∧
    (∀ (s e be : Int), isSlotBusy s e [{ start := some e, stop := some be }] = false) ∧
    (∀ (s e bs : Int), isSlotBusy s e [{ start := some bs, stop := some s }] = false) := by
  refine ⟨?_, ?_, ?_⟩
  · intro s e busy
    simp only [isSlotBusy, List.any_eq_true]
    exact ⟨fun ⟨b, hb, h⟩ => ⟨b, hb, (busyMatch_iff s e b).mp h⟩,
      fun ⟨b, hb, h⟩ => ⟨b, hb, (busyMatch_iff s e b).mpr h⟩⟩
  · intro s e be
    simp [isSlotBusy]
  · intro s e bs
    simp [isSlotBusy]

/-- C3: `isTimeBlocked` applies its checks in the fixed order vacation
range → excluded date → holiday → business hours, and the first matching
check determines the returned reason; in particular an instant whose
wall-clock date lies in a vacation range and also matches a holiday
month-day is blocked with the vacation reason, never the holiday
reason. -/
theorem isTimeBlocked_first_match :
    (∀ (p : WallParts) (client : ClientPolicy),
      isTimeBlocked p client =
        if vacationHit p client then { blocked := true, reason := some "on vacation" }
        else if excludedHit p client then { blocked := true, reason := some "date excluded" }
        else if holidayHit p client then { blocked := true, reason := some "holiday" }
        else if outsideHoursHit p client then
          { blocked := true, reason := some "outside business hours" }
        else { blocked := false, reason := none }) ∧
    (∀ (p : WallParts) (client : ClientPolicy),
      vacationHit p client = true → holidayHit p client = true →
        isTimeBlocked p client = { blocked := true, reason := some "on vacation" }) := by
  have main : ∀ (p : WallParts) (client : ClientPolicy),
      isTimeBlocked p client =
        if vacationHit p client then { blocked := true, reason := some "on vacation" }
        else if excludedHit p client then { blocked := true, reason := some "date excluded" }
        else if holidayHit p client then { blocked := true, reason := some "holiday" }
        else if outsideHoursHit p client then
          { blocked := true, reason := some "outside business hours" }
        else { blocked := false, reason := none } := by
    intro p client
    unfold isTimeBlocked vacationHit excludedHit holidayHit outsideHoursHit
    cases hv : (client.vacations.getD []).find? (vacationMatches (dateStrOf p)) with
    | some x => simp [hv, any_of_find?_eq_some hv]
    | none =>
      simp only [hv, any_eq_false_of_find?_eq_none hv, if_false, Bool.false_eq_true]
      cases hx : (client.excluded_dates.getD []).find? (excludedMatches (dateStrOf p)) with
      | some x => simp [hx, any_of_find?_eq_some hx]
      | none =>
        simp only [hx, any_eq_false_of_find?_eq_none hx, if_false, Bool.false_eq_true]
        cases hh : (client.holidays.getD []).contains (monthDayOf p) with
        | true => simp [hh]
        | false =>
          simp only [hh, if_false, Bool.false_eq_true]
          cases hbh : client.business_hours with
          | none => simp
          | some rules =>
            by_cases hlen : rules.length > 0
            · cases hf : rules.find? (hoursRuleMatches p.dayOfWeek (timeStrOf p)) with
              | some r => simp [hlen, hf, any_of_find?_eq_some hf]
              | none => simp [hlen, hf, any_eq_false_of_find?_eq_none hf]
            · simp [hlen]
  refine ⟨main, ?_⟩
  intro p client h1 h2
  rw [main p client, if_pos h1]

/-- C10: vacation ranges and excluded-date "start|end" ranges block
inclusively at both endpoints — the containment test is
`start <= date <= end` on date strings — in contrast to the half-open
`[start, end)` business-hours test, which rejects an instant whose time
string equals a rule's end. -/
theorem isTimeBlocked_inclusive_range_endpoints :
    (∀ (p : WallParts) (client : ClientPolicy) (v : DateRange),
      v ∈ client.vacations.getD [] → strLe v.start v.stop = true →
      (dateStrOf p = v.start ∨ dateStrOf p = v.stop) →
      (isTimeBlocked p client).blocked = true) ∧
    (∀ (p : WallParts) (client : ClientPolicy) (ex : String) (sl el : List Char)
        (rest : List (List Char)),
      ex ∈ client.excluded_dates.getD [] → ex.data.contains '|' = true →
      splitPipe ex.data = sl :: el :: rest →
      strLe (String.mk sl) (String.mk el) = true →
      (dateStrOf p = String.mk sl ∨ dateStrOf p = String.mk el) →
      (isTimeBlocked p client).blocked = true) ∧
    (∀ (dow : Nat) (rule : HoursRuleStr), hoursRuleMatches dow rule.stop rule = false) := by
  refine ⟨?_, ?_, ?_⟩
  · intro p client v hmem hrange hends
    have hmatch : vacationMatches (dateStrOf p) v = true := by
      rcases hends with h | h <;>
        simp [vacationMatches, h, strLe_refl, hrange]
    cases hv : (client.vacations.getD []).find? (vacationMatches (dateStrOf p)) with
    | none => exact absurd hv (find?_ne_none_of_pred hmem hmatch)
    | some x => simp [isTimeBlocked, hv]
  · intro p client ex sl el rest hmem hpipe hsplit hrange hends
    have hpipe' : '|' ∈ ex.data := by simpa using hpipe
    have hmatch : excludedMatches (dateStrOf p) ex = true := by
      unfold excludedMatches
      rw [hsplit]
      rcases hends with h | h <;>
        simp [hpipe', h, strLe_refl, hrange]
    cases hv : (client.vacations.getD []).find? (vacationMatches (dateStrOf p)) with
    | some x => simp [isTimeBlocked, hv]
    | none =>
      cases hx : (client.excluded_dates.getD []).find? (excludedMatches (dateStrOf p)) with
      | none => exact absurd hx (find?_ne_none_of_pred hmem hmatch)
      | some x => simp [isTimeBlocked, hv, hx]
  · intro dow rule
    cases hd : rule.days.contains dow <;>
      simp [hoursRuleMatches, hd, strLt, lexLtB_self]

/-- C7 (amended): with an absent or empty rule list the policy engine
`isTimeBlocked` never reports the outside-business-hours reason; the
slot search's `isWithinBusinessHours`, however, treats every instant as
outside hours when the rule list is present but empty, and substitutes
the default Monday–Friday 09:00–17:00 rules when `businessHours` is
absent. -/
theorem businessHours_empty_semantics :
    (∀ (p : WallParts) (client : ClientPolicy),
      (client.business_hours = none ∨ client.business_hours = some []) →
      (isTimeBlocked p client).reason ≠ some "outside business hours") ∧
    (∀ (off t : Int),
      (isWithinBusinessHours off t (some { rules := [] })).within = false) ∧
    (∀ (off t : Int),
      isWithinBusinessHours off t none =
        isWithinBusinessHours off t (some { rules := defaultRules })) := by
  refine ⟨?_, fun _ _ => rfl, fun _ _ => rfl⟩
  intro p client hbh
  unfold isTimeBlocked
  cases hv : (client.vacations.getD []).find? (vacationMatches (dateStrOf p)) with
  | some x => simp [hv]
  | none =>
    cases hx : (client.excluded_dates.getD []).find? (excludedMatches (dateStrOf p)) with
    | some x => simp [hv, hx]
    | none =>
      cases hh : (client.holidays.getD []).contains (monthDayOf p) with
      | true => simp [hv, hx, hh]
      | false =>
        rcases hbh with h | h <;> simp [hv, hx, hh, h]

/-- C7 (counterexample to the claim as stated): at the Saturday instant
2025-02-01 10:00 UTC the policy engine with no business-hours rules does
not block, yet the slot search with an *absent* `businessHours` treats
the same instant as outside hours (default Monday–Friday rules kick in),
and with a present-but-empty rule list it treats even a Tuesday 10:00
instant as outside hours — so the slot search does reject candidates on
business-hours grounds under a policy with no rules. -/
theorem businessHours_absent_rejects_cex :
    (isTimeBlocked ⟨2025, 2, 1, 10, 0, 6⟩ ⟨none, none, none, none⟩).blocked = false ∧
    (isWithinBusinessHours 0 1738404000000 none).within = false ∧
    (isWithinBusinessHours 0 1738058400000 (some { rules := [] })).within = false := by
  decide

theorem setHoursServer_gt_of_minuteOfDay_lt (off t : Int) (m : Nat)
    (h : minuteOfDay off t < m) : t < setHoursServer off t m := by
  unfold minuteOfDay setHoursServer wallDay at *
  omega

theorem setHoursServer_next_day_gt (off t : Int) (m : Nat) :
    t < setHoursServer off (t + 86400000) m := by
  unfold setHoursServer wallDay
  omega

theorem bhFirstPass_cases (dow cur : Nat) :
    ∀ (rules : List BusinessHoursRule) (c : BusinessCheck),
      bhFirstPass dow cur rules = some c →
      c = ⟨true, none, false⟩ ∨ ∃ m, c = ⟨false, some m, false⟩ ∧ cur < m := by
  intro rules
  induction rules with
  | nil => intro c h; simp [bhFirstPass] at h
  | cons r rs ih =>
    intro c h
    unfold bhFirstPass at h
    split at h
    · split at h
      · exact Or.inl (Option.some.inj h).symm
      · split at h
        · rename_i hlt
          exact Or.inr ⟨r.start, (Option.some.inj h).symm, hlt⟩
        · exact ih c h
    · exact ih c h

theorem isWithinBusinessHours_not_within (off t : Int) (bh : Option BusinessHours)
    (h : (isWithinBusinessHours off t bh).within = false) :
    ∃ m, (isWithinBusinessHours off t bh).nextStart = some m ∧
      ((isWithinBusinessHours off t bh).nextDay = true ∨ minuteOfDay off t < m) := by
  unfold isWithinBusinessHours at h ⊢
  cases hfp : bhFirstPass (dayOfWeek off t) (minuteOfDay off t) (bhRules bh) with
  | some c =>
    rcases bhFirstPass_cases _ _ _ _ hfp with h1 | ⟨m, hc, hm⟩
    · rw [hfp, h1] at h
      simp at h
    · subst hc
      exact ⟨m, rfl, Or.inr hm⟩
  | none =>
    cases hla : bhLookAhead (bhRules bh) (dayOfWeek off t) with
    | some s => exact ⟨s, rfl, Or.inl rfl⟩
    | none => exact ⟨540, rfl, Or.inl rfl⟩

theorem skip_advances (off t : Int) (bh : Option BusinessHours)
    (h : (isWithinBusinessHours off t bh).within = false) :
    t < (match (isWithinBusinessHours off t bh).nextStart with
         | some mins => setHoursServer off
             (if (isWithinBusinessHours off t bh).nextDay then t + 86400000 else t) mins
         | none => if (isWithinBusinessHours off t bh).nextDay then t + 86400000 else t) := by
  obtain ⟨m, hns, hcase⟩ := isWithinBusinessHours_not_within off t bh h
  rw [hns]
  cases hd : (isWithinBusinessHours off t bh).nextDay with
  | true => simp only [if_true]; exact setHoursServer_next_day_gt off t m
  | false =>
    simp only [Bool.false_eq_true, if_false]
    rcases hcase with h1 | h2
    · exact absurd (hd ▸ h1) (by simp)
    · exact setHoursServer_gt_of_minuteOfDay_lt off t m h2

theorem go_length_le (sOff off durMs : Int) (busy : List BusyPeriod) (maxSlots : Nat)
    (bh : Option BusinessHours) (maxCT : Int) :
    ∀ (fuel : Nat) (t : Int) (acc : List TimeSlot), acc.length ≤ maxSlots →
      (findAlternativeSlotsGo sOff off durMs busy maxSlots bh maxCT fuel t acc).2.length ≤
        maxSlots := by
  intro fuel
  induction fuel with
  | zero => intro t acc h; simpa [findAlternativeSlotsGo] using h
  | succ n ih =>
    intro t acc h
    simp only [findAlternativeSlotsGo]
    split
    · rename_i hcond
      split
      · split
        · exact ih _ _ h
        · exact ih _ _ (by simpa using hcond.1)
      · exact ih _ _ h
    · simpa using h

theorem go_anchored_sorted (off durMs : Int) (busy : List BusyPeriod) (maxSlots : Nat)
    (bh : Option BusinessHours) (maxCT : Int) (lb : Int) :
    ∀ (fuel : Nat) (t : Int) (acc : List TimeSlot), lb ≤ t →
      (∀ s ∈ acc, lb ≤ s.start ∧ s.start < t) →
      acc.Pairwise (fun a b => b.start < a.start) →
      (∀ s ∈ (findAlternativeSlotsGo off off durMs busy maxSlots bh maxCT fuel t acc).2,
        lb ≤ s.start) ∧
      (findAlternativeSlotsGo off off durMs busy maxSlots bh maxCT fuel t acc).2.Pairwise
        (fun a b => a.start < b.start) := by
  intro fuel
  induction fuel with
  | zero =>
    intro t acc ht hacc hpw
    refine ⟨fun s hs => (hacc s (List.mem_reverse.mp hs)).1, ?_⟩
    exact List.pairwise_reverse.mpr hpw
  | succ n ih =>
    intro t acc ht hacc hpw
    simp only [findAlternativeSlotsGo]
    split
    · rename_i hcond
      split
      · rename_i hwithin
        split
        · exact ih (t + 30 * 60000) acc (by omega)
            (fun s hs => ⟨(hacc s hs).1, by have := (hacc s hs).2; omega⟩) hpw
        · refine ih (t + 30 * 60000) (⟨t, t + durMs⟩ :: acc) (by omega) ?_ ?_
          · intro s hs
            rcases List.mem_cons.mp hs with h | h
            · rw [h]
              exact ⟨ht, by show t < t + 30 * 60000; omega⟩
            · exact ⟨(hacc s h).1, by have := (hacc s h).2; omega⟩
          · exact List.pairwise_cons.mpr ⟨fun b hb => (hacc b hb).2, hpw⟩
      · rename_i hwithin
        have hw : (isWithinBusinessHours off t bh).within = false := by
          simpa using hwithin
        have hadv := skip_advances off t bh hw
        exact ih _ acc (by omega)
          (fun s hs => ⟨(hacc s hs).1, by have := (hacc s hs).2; omega⟩) hpw
    · refine ⟨fun s hs => (hacc s (List.mem_reverse.mp hs)).1, ?_⟩
      exact List.pairwise_reverse.mpr hpw

/-- C2 (amended): the range scan always returns at most `maxSlots`
slots; and when the server's local zone coincides with the policy zone
(equal offsets — the deployment configuration the code assumes), every
returned slot starts at or after the anchor and the returned slots have
strictly increasing start times, earliest first. -/
theorem findAlternativeSlots_bounded_anchored_sorted :
    ∀ (sOff off startFrom durationMinutes : Int) (busy : List BusyPeriod)
      (maxSlots : Nat) (bh : Option BusinessHours) (fuel : Nat),
      (findAlternativeSlotsTS sOff off startFrom durationMinutes busy maxSlots bh
        fuel).2.length ≤ maxSlots ∧
      (∀ s ∈ (findAlternativeSlotsTS off off startFrom durationMinutes busy maxSlots bh
        fuel).2, startFrom ≤ s.start) ∧
      (findAlternativeSlotsTS off off startFrom durationMinutes busy maxSlots bh
        fuel).2.Pairwise (fun a b => a.start < b.start) := by
  intro sOff off startFrom durationMinutes busy maxSlots bh fuel
  refine ⟨go_length_le _ _ _ _ _ _ _ fuel startFrom [] (by simp), ?_, ?_⟩
  · exact (go_anchored_sorted off (durationMinutes * 60000) busy maxSlots bh
      (startFrom + 3 * 86400000) startFrom fuel startFrom [] le_rfl (by simp)
      (by simp)).1
  · exact (go_anchored_sorted off (durationMinutes * 60000) busy maxSlots bh
      (startFrom + 3 * 86400000) startFrom fuel startFrom [] le_rfl (by simp)
      (by simp)).2

/-- C2 (counterexample to the claim as stated): with the server in UTC
and the policy zone at UTC+5 (Asia/Karachi), rules Tuesday/Wednesday
09:00–17:00, and the anchor Tue 2025-01-28 20:00 UTC (Wed 01:00 local),
the business-hours skip sets the *server-local* clock to 09:00,
jumping 11 hours backwards, and the scan then returns slots starting
before the anchor. -/
theorem findAlternativeSlots_slot_before_anchor_cex :
    ∃ s ∈ (findAlternativeSlotsTS 0 300 1738094400000 30 []
        3 (some { rules := [{ days := [2, 3], start := 540, stop := 1020 }] }) 10).2,
      s.start < 1738094400000 := by decide

theorem go_NY_fixed :
    ∀ n : Nat, findAlternativeSlotsGo 0 (-300) (30 * 60000) [] 3 none
      (1737968400000 + 3 * 86400000) n 1737968400000 [] = (false, []) := by
  intro n
  induction n with
  | zero => rfl
  | succ k ih =>
    have step : findAlternativeSlotsGo 0 (-300) (30 * 60000) [] 3 none
        (1737968400000 + 3 * 86400000) (k + 1) 1737968400000 [] =
        findAlternativeSlotsGo 0 (-300) (30 * 60000) [] 3 none
        (1737968400000 + 3 * 86400000) k 1737968400000 [] := rfl
    rw [step]
    exact ih

/-- C9: the candidate-stepping loop of the TypeScript `findAlternativeSlots`
has no iteration bound at all: with the server in UTC, the policy zone
at UTC−5 (America/New_York) and the default Monday–Friday 09:00–17:00
rules, starting from Mon 2025-01-27 09:00 UTC (04:00 local) the
business-hours skip sets the server-local clock to 09:00 — a no-op —
so the loop guard stays true and the state never changes: for every
step count the loop is still running (`false` marks fuel exhaustion,
never a normal exit). -/
theorem findAlternativeSlots_no_iteration_bound :
    ∀ fuel : Nat,
      findAlternativeSlotsTS 0 (-300) 1737968400000 30 [] 3 none fuel = (false, []) :=
  fun fuel => go_NY_fixed fuel


theorem pse_cases (leads : String → Option String) (e : CalEvent) (σ : List Appointment) :
    processSingleEvent leads e σ = σ ∨
    ∃ id, e.id = some id ∧ eventQualifies e = true ∧
      getAppointmentByCalendarEventId σ id = none ∧
      processSingleEvent leads e σ = σ ++ [⟨id, pseLeadId leads e⟩] := by
  cases hid : e.id with
  | none => exact Or.inl (by unfold processSingleEvent; rw [hid])
  | some id =>
    by_cases h1 : id = ""
    · exact Or.inl (by unfold processSingleEvent; rw [hid]; simp [h1])
    · cases hcan : e.status == some "cancelled" with
      | true => exact Or.inl (by unfold processSingleEvent; rw [hid]; simp [h1, hcan])
      | false =>
        cases hst : e.start with
        | none => exact Or.inl (by unfold processSingleEvent; rw [hid, hst]; simp [h1, hcan])
        | some st =>
          cases hen : e.stop with
          | none =>
            exact Or.inl (by unfold processSingleEvent; rw [hid, hst, hen]; simp [h1, hcan])
          | some en =>
            cases hdt : (!optStrTruthy st.dateTime || !optStrTruthy en.dateTime) with
            | true =>
              exact Or.inl
                (by unfold processSingleEvent; rw [hid, hst, hen]; simp [h1, hcan, hdt])
            | false =>
              cases hf : getAppointmentByCalendarEventId σ id with
              | some a =>
                exact Or.inl (by
                  unfold processSingleEvent
                  rw [hid, hst, hen]
                  simp [h1, hcan, hdt, hf])
              | none =>
                cases hext : (((e.attendees.getD []).filter isExternalAttendee).isEmpty &&
                    (!optStrTruthy (e.creator.bind Creator.email) ||
                      (e.creator.map Creator.self).getD false)) with
                | true =>
                  exact Or.inl (by
                    unfold processSingleEvent
                    rw [hid, hst, hen]
                    simp [h1, hcan, hdt, hf, hext])
                | false =>
                  refine Or.inr ⟨id, rfl, ?_, hf, ?_⟩
                  · unfold eventQualifies
                    rw [hid, hst, hen]
                    simp only [Bool.or_eq_false_iff] at hdt
                    simp [h1, bne, hcan, hext]
                    exact ⟨by simpa using hdt.1, by simpa using hdt.2⟩
                  · unfold processSingleEvent pseLeadId
                    rw [hid, hst, hen]
                    simp [h1, hcan, hdt, hf, hext]


theorem pse_creates (leads : String → Option String) (e : CalEvent)
    (σ : List Appointment) (id : String) (hq : eventQualifies e = true)
    (hid : e.id = some id) (hf : getAppointmentByCalendarEventId σ id = none) :
    processSingleEvent leads e σ = σ ++ [⟨id, pseLeadId leads e⟩] := by
  unfold eventQualifies at hq
  rw [hid] at hq
  cases hst : e.start with
  | none => rw [hst] at hq; simp at hq
  | some st =>
    cases hen : e.stop with
    | none => rw [hst, hen] at hq; simp at hq
    | some en =>
      rw [hst, hen] at hq
      simp only [Bool.and_eq_true, bne_iff_ne, ne_eq, Bool.not_eq_true] at hq
      obtain ⟨⟨⟨hq1, hq2⟩, hq3, hq4⟩, hq5⟩ := hq
      unfold processSingleEvent pseLeadId
      rw [hid, hst, hen]
      simp only [Bool.not_eq_true'] at hq5
      simp [hq1, hq2, hq3, hq4, hf]
      intro hall
      have hemp : (List.filter isExternalAttendee (e.attendees.getD [])).isEmpty = true := by
        rw [List.isEmpty_iff, List.filter_eq_nil_iff]
        intro a ha
        simp [hall a ha]
      rw [hemp, Bool.true_and, Bool.or_eq_false_iff] at hq5
      exact ⟨by simpa using hq5.1, hq5.2⟩

theorem lookup_append_single (σ : List Appointment) (id : String) (ld : Option String) :
    (getAppointmentByCalendarEventId (σ ++ [⟨id, ld⟩]) id).isSome = true := by
  unfold getAppointmentByCalendarEventId
  rw [List.find?_append]
  cases h : List.find? (fun a => a.externalCalendarId == id) σ <;>
    simp [h, List.find?]

theorem lookup_mono_append (σ τ : List Appointment) (id : String)
    (h : (getAppointmentByCalendarEventId σ id).isSome = true) :
    (getAppointmentByCalendarEventId (σ ++ τ) id).isSome = true := by
  unfold getAppointmentByCalendarEventId at h ⊢
  rw [List.find?_append]
  cases h' : List.find? (fun a => a.externalCalendarId == id) σ
  · rw [h'] at h
    exact absurd h (by simp)
  · simp [h']

theorem processPage_nil (leads : String → Option String) (σ : List Appointment) :
    processPage leads [] σ = σ := rfl

theorem processPage_cons (leads : String → Option String) (f : CalEvent)
    (fs : List CalEvent) (σ : List Appointment) :
    processPage leads (f :: fs) σ = processPage leads fs (processSingleEvent leads f σ) := rfl

theorem processPage_eq_append (leads : String → Option String) :
    ∀ (es : List CalEvent) (σ : List Appointment),
      ∃ τ, processPage leads es σ = σ ++ τ := by
  intro es
  induction es with
  | nil => exact fun σ => ⟨[], by simp [processPage_nil]⟩
  | cons f fs ih =>
    intro σ
    rcases pse_cases leads f σ with h | ⟨id, _, _, _, heq⟩
    · obtain ⟨τ, hτ⟩ := ih (processSingleEvent leads f σ)
      exact ⟨τ, by rw [processPage_cons, hτ, h]⟩
    · obtain ⟨τ, hτ⟩ := ih (processSingleEvent leads f σ)
      exact ⟨[⟨id, pseLeadId leads f⟩] ++ τ, by
        rw [processPage_cons, hτ, heq, List.append_assoc]⟩

theorem pse_contains_self (leads : String → Option String) (e : CalEvent)
    (σ : List Appointment) (id : String) (hid : e.id = some id)
    (hq : eventQualifies e = true) :
    (getAppointmentByCalendarEventId (processSingleEvent leads e σ) id).isSome = true := by
  cases hfnd : getAppointmentByCalendarEventId σ id with
  | some a =>
    rcases pse_cases leads e σ with h | ⟨id', hid', _, hf', heq'⟩
    · rw [h, hfnd]; rfl
    · have : id' = id := Option.some.inj (hid'.symm.trans hid)
      subst this
      rw [hf'] at hfnd
      exact absurd hfnd (by simp)
  | none =>
    rw [pse_creates leads e σ id hq hid hfnd]
    exact lookup_append_single σ id (pseLeadId leads e)

theorem processPage_contains (leads : String → Option String) :
    ∀ (es : List CalEvent) (σ : List Appointment) (e : CalEvent) (id : String),
      e ∈ es → e.id = some id → eventQualifies e = true →
      (getAppointmentByCalendarEventId (processPage leads es σ) id).isSome = true := by
  intro es
  induction es with
  | nil => intro σ e id h; simp at h
  | cons f fs ih =>
    intro σ e id hmem hid hq
    rcases List.mem_cons.mp hmem with h | h
    · subst h
      rw [processPage_cons]
      obtain ⟨τ, hτ⟩ := processPage_eq_append leads fs (processSingleEvent leads e σ)
      rw [hτ]
      exact lookup_mono_append _ τ id (pse_contains_self leads e σ id hid hq)
    · rw [processPage_cons]
      exact ih _ e id h hid hq

theorem pse_stable_of_contains (leads : String → Option String) (e : CalEvent)
    (σ : List Appointment)
    (h : ∀ id, e.id = some id → eventQualifies e = true →
      (getAppointmentByCalendarEventId σ id).isSome = true) :
    processSingleEvent leads e σ = σ := by
  rcases pse_cases leads e σ with h1 | ⟨id, hid, hq, hf, heq⟩
  · exact h1
  · have := h id hid hq
    rw [hf] at this
    exact absurd this (by simp)

theorem processPage_stable (leads : String → Option String) :
    ∀ (es : List CalEvent) (σ : List Appointment),
      (∀ e ∈ es, processSingleEvent leads e σ = σ) → processPage leads es σ = σ := by
  intro es
  induction es with
  | nil => intro σ _; rfl
  | cons f fs ih =>
    intro σ h
    rw [processPage_cons, h f (List.mem_cons_self f fs)]
    exact ih σ (fun e he => h e (List.mem_cons_of_mem f he))

theorem processPage_idem (leads : String → Option String) (es : List CalEvent)
    (σ : List Appointment) :
    processPage leads es (processPage leads es σ) = processPage leads es σ := by
  apply processPage_stable
  intro e he
  apply pse_stable_of_contains
  intro id hid hq
  exact processPage_contains leads es σ e id he hid hq

theorem countId_append (σ τ : List Appointment) (id : String) :
    countId (σ ++ τ) id = countId σ id + countId τ id := by
  simp [countId, List.filter_append]

theorem countId_eq_zero_of_lookup_none (σ : List Appointment) (id : String)
    (h : getAppointmentByCalendarEventId σ id = none) : countId σ id = 0 := by
  unfold getAppointmentByCalendarEventId at h
  unfold countId
  have hall := List.find?_eq_none.mp h
  rw [List.length_eq_zero, List.filter_eq_nil_iff]
  exact fun a ha => by simp [hall a ha]

theorem countId_pos_of_lookup_isSome (σ : List Appointment) (id : String)
    (h : (getAppointmentByCalendarEventId σ id).isSome = true) : 1 ≤ countId σ id := by
  obtain ⟨a, ha⟩ := Option.isSome_iff_exists.mp h
  unfold getAppointmentByCalendarEventId at ha
  have hmem := List.mem_of_find?_eq_some ha
  have hpred := List.find?_some ha
  unfold countId
  have : a ∈ σ.filter (fun x => x.externalCalendarId == id) :=
    List.mem_filter.mpr ⟨hmem, hpred⟩
  exact List.length_pos.mpr (List.ne_nil_of_mem this)

theorem countId_single (id' id : String) (ld : Option String) :
    countId [⟨id', ld⟩] id = if id' = id then 1 else 0 := by
  by_cases h : id' = id <;> simp [countId, h]

theorem pse_countId_le_one (leads : String → Option String) (e : CalEvent)
    (σ : List Appointment) (id : String) (h : countId σ id ≤ 1) :
    countId (processSingleEvent leads e σ) id ≤ 1 := by
  rcases pse_cases leads e σ with h1 | ⟨id', _, _, hf, heq⟩
  · rw [h1]; exact h
  · rw [heq, countId_append, countId_single]
    by_cases hi : id' = id
    · subst hi
      rw [countId_eq_zero_of_lookup_none σ id' hf]
      simp
    · simp [hi, h]

theorem processPage_countId_le_one (leads : String → Option String) :
    ∀ (es : List CalEvent) (σ : List Appointment) (id : String), countId σ id ≤ 1 →
      countId (processPage leads es σ) id ≤ 1 := by
  intro es
  induction es with
  | nil => intro σ id h; exact h
  | cons f fs ih =>
    intro σ id h
    rw [processPage_cons]
    exact ih _ id (pse_countId_le_one leads f σ id h)

theorem processPage_countId_created (leads : String → Option String)
    (es : List CalEvent) (σ : List Appointment) (id : String) (e : CalEvent)
    (hmem : e ∈ es) (hid : e.id = some id) (hq : eventQualifies e = true)
    (h0 : countId σ id = 0) : countId (processPage leads es σ) id = 1 := by
  have hle : countId (processPage leads es σ) id ≤ 1 :=
    processPage_countId_le_one leads es σ id (by omega)
  have hge : 1 ≤ countId (processPage leads es σ) id :=
    countId_pos_of_lookup_isSome _ id (processPage_contains leads es σ e id hmem hid hq)
  omega


/-- C4: reconciliation is idempotent per external event id: replaying a
page leaves the store unchanged (every event whose id is already linked
is skipped, as are cancelled, untimed, and participant-less events); a
store with at most one appointment per id keeps that property; and a
qualifying event whose id is not yet linked yields exactly one
appointment for that id, even if the id recurs in the page. -/
theorem reconciliation_idempotent :
    (∀ (findLeadByEmail : String → Option String) (events : List CalEvent)
        (store : List Appointment),
      processPage findLeadByEmail events (processPage findLeadByEmail events store) =
        processPage findLeadByEmail events store) ∧
    (∀ (findLeadByEmail : String → Option String) (events : List CalEvent)
        (store : List Appointment) (id : String),
      countId store id ≤ 1 → countId (processPage findLeadByEmail events store) id ≤ 1) ∧
    (∀ (findLeadByEmail : String → Option String) (events : List CalEvent)
        (store : List Appointment) (id : String) (e : CalEvent),
      e ∈ events → e.id = some id → eventQualifies e = true → countId store id = 0 →
      countId (processPage findLeadByEmail events store) id = 1) :=
  ⟨processPage_idem, processPage_countId_le_one,
    fun l es σ id e hm hi hq h0 => processPage_countId_created l es σ id e hm hi hq h0⟩

/-- C5: a reconciliation pass propagates any provider failure raised
during event paging with the stored sync token unchanged — except a 410
token-invalid failure, which clears the stored token and returns
normally; events of the pages processed before the failure keep their
effects either way. -/
theorem processCalendarChanges_token_semantics :
    ∀ (findLeadByEmail : String → Option String) (storedToken : Option String)
      (store : List Appointment) (pref : List EventsPage) (e : GError)
      (rest : List (Except GError EventsPage)),
      (∀ p ∈ pref, p.nextPageToken.isSome = true) →
      processCalendarChangesRun findLeadByEmail storedToken
          (pref.map Except.ok ++ Except.error e :: rest) store =
        (if e.code = 410 then
          (SyncOutcome.ok, none,
            pref.foldl (fun acc p => processPage findLeadByEmail p.items acc) store)
         else
          (SyncOutcome.err e, storedToken,
            pref.foldl (fun acc p => processPage findLeadByEmail p.items acc) store)) := by
  intro findLeadByEmail storedToken store pref
  induction pref generalizing store with
  | nil =>
    intro e rest h
    simp only [List.map_nil, List.nil_append, List.foldl_nil, processCalendarChangesRun]
  | cons p ps ih =>
    intro e rest h
    obtain ⟨tok, htok⟩ := Option.isSome_iff_exists.mp (h p (List.mem_cons_self p ps))
    simp only [List.map_cons, List.cons_append, List.foldl_cons, processCalendarChangesRun,
      htok]
    exact ih _ e rest (fun q hq => h q (List.mem_cons_of_mem p hq))


theorem parseAfterTime_success (oracle : String → List ChronoComponents)
    (sOff off ref : Int) (hourRaw : Nat) (meridiem : Option String)
    (withoutAfter : String) :
    (parseAfterTime oracle sOff off ref hourRaw meridiem withoutAfter).success = true := rfl

theorem parseTimeOfDay_success (oracle : String → List ChronoComponents)
    (sOff off ref : Int) (hStart hStop : Nat) (withoutPeriod : String) :
    (parseTimeOfDay oracle sOff off ref hStart hStop withoutPeriod).success = true := rfl

/-- C6: `parseDateTime` is a total function into `ParseResult` — on
malformed input it returns a failure value rather than raising — and it
fails exactly when no branch recognises the text (no "after N" pattern,
no time-of-day keyword, and the delegated grammar returns no result),
in which case the result carries the descriptive reason
`Could not parse date/time from: "<input>"`. -/
theorem parseDateTime_failure_iff :
    ∀ (oracle : String → List ChronoComponents) (sOff off : Int) (input : String)
      (ref : Int),
      ((parseDateTime oracle sOff off input ref).success = false ↔
        (findAfterMatch (normalizeInput input).data = none ∧
         timeRanges.find? (fun pr => containsSub (normalizeInput input) pr.1) = none ∧
         oracle (normalizeInput input) = [])) ∧
      ((parseDateTime oracle sOff off input ref).success = false →
        (parseDateTime oracle sOff off input ref).error =
          some ("Could not parse date/time from: \"" ++ input ++ "\"")) := by
  intro oracle sOff off input ref
  cases hA : findAfterMatch (normalizeInput input).data with
  | some q =>
    obtain ⟨pre, hr, mer, post⟩ := q
    have hsucc : (parseDateTime oracle sOff off input ref).success = true := by
      simp [parseDateTime, hA, parseAfterTime_success]
    constructor
    · simp [hsucc, hA]
    · intro hfalse
      rw [hsucc] at hfalse
      simp at hfalse
  | none =>
    cases hT : timeRanges.find? (fun pr => containsSub (normalizeInput input) pr.1) with
    | some pr =>
      obtain ⟨period, hs, he⟩ := pr
      have hsucc : (parseDateTime oracle sOff off input ref).success = true := by
        simp [parseDateTime, hA, hT, parseTimeOfDay_success]
      constructor
      · simp [hsucc, hT]
      · intro hfalse
        rw [hsucc] at hfalse
        simp at hfalse
    | none =>
      cases hO : oracle (normalizeInput input) with
      | nil =>
        have heq : parseDateTime oracle sOff off input ref =
            { success := false,
              error := some ("Could not parse date/time from: \"" ++ input ++ "\"") } := by
          simp [parseDateTime, hA, hT, hO]
        constructor
        · simp [heq, hA, hT, hO]
        · intro _
          rw [heq]
      | cons c cs =>
        have hsucc : (parseDateTime oracle sOff off input ref).success = true := by
          simp only [parseDateTime, hA, hT, hO]
          cases hC : c.hourCertain <;> simp [hC]
        constructor
        · simp [hsucc, hO]
        · intro hfalse
          rw [hsucc] at hfalse
          simp at hfalse

/-- C8 (counterexample to the claim as stated): parsing "Wednesday" with
the reference instant Wed 2025-01-29 09:00 America/New_York (before the
grammar's implied noon) yields the open range of that same Wednesday —
`rangeStart` is the reference morning itself (09:00 local = 14:00 UTC),
not the following Wednesday seven days later. -/
theorem parseDateTime_wednesday_same_day_cex :
    parseDateTime chronoWednesdayOracle 0 (-300) "Wednesday" 1738159200000 =
      { success := true, isRange := true, needsTimeSpecified := true,
        rangeStart := some 1738159200000, rangeEnd := some 1738198800000,
        slot := some ⟨1738159200000, 1738198800000⟩ } ∧
    (parseDateTime chronoWednesdayOracle 0 (-300) "Wednesday"
        1738159200000).rangeStart ≠ some (1738159200000 + 7 * 86400000) := by
  constructor
  · decide
  · decide

/-- C8 (amended): for weekday-only input resolved by the grammar with no
certain hour, `parseDateTime` rolls the resolved day forward by exactly
7 days when the grammar-resolved instant (the implied wall-clock time on
the resolved date) is strictly before the reference instant, and keeps
the resolved day otherwise; in particular a reference on the same
weekday sees the next week only when it lies after the resolved
instant. -/
theorem parseDateTime_weekday_roll :
    ∀ (oracle : String → List ChronoComponents) (sOff off : Int) (input : String)
      (ref : Int) (c : ChronoComponents) (cs : List ChronoComponents),
      findAfterMatch (normalizeInput input).data = none →
      timeRanges.find? (fun pr => containsSub (normalizeInput input) pr.1) = none →
      oracle (normalizeInput input) = c :: cs →
      isWeekdayOnlyMain (normalizeInput input) = true →
      c.hourCertain = false →
      ((parseDateTime oracle sOff off input ref).rangeStart =
          some (createDateInTimezone off
            ((if utcMs c.year (c.month - 1) c.day c.hour c.minute - off * 60000 < ref then
                utcMs c.year (c.month - 1) c.day c.hour c.minute + 7 * 86400000
              else utcMs c.year (c.month - 1) c.day c.hour c.minute) - off * 60000) 9 0)) ∧
      (utcMs c.year (c.month - 1) c.day c.hour c.minute - off * 60000 < ref →
        wallDay off (utcMs c.year (c.month - 1) c.day c.hour c.minute + 7 * 86400000 -
            off * 60000) =
          wallDay off (utcMs c.year (c.month - 1) c.day c.hour c.minute - off * 60000) + 7) := by
  intro oracle sOff off input ref c cs hA hT hO hW hC
  constructor
  · by_cases hlt : utcMs c.year (c.month - 1) c.day c.hour c.minute - off * 60000 < ref
    · simp [parseDateTime, hA, hT, hO, hW, hC, hlt]
    · simp [parseDateTime, hA, hT, hO, hW, hC, hlt]
  · intro h
    unfold wallDay
    omega


/-- Witness for C1: a genuinely overlapping busy period is flagged. -/
theorem isSlotBusy_overlap_law_witness :
    isSlotBusy 0 50 [{ start := some 40, stop := some 100 }] = true :=
  (isSlotBusy_overlap_law.1 0 50 [{ start := some 40, stop := some 100 }]).mpr
    ⟨{ start := some 40, stop := some 100 }, by decide, 40, 100, rfl, rfl, by decide,
      by decide⟩

/-- Witness for C2: with server and policy zone both at UTC, the first
slot found from Tue 2025-01-28 09:00 UTC starts at the anchor itself. -/
theorem findAlternativeSlots_bounded_anchored_sorted_witness :
    (1738054800000 : Int) ≤ (TimeSlot.mk 1738054800000 1738056600000).start :=
  (findAlternativeSlots_bounded_anchored_sorted 0 0 1738054800000 30 [] 3 none 10).2.1
    ⟨1738054800000, 1738056600000⟩ (by decide)

/-- Witness for C3: a date inside a vacation range that is also a listed
holiday is blocked with the vacation reason. -/
theorem isTimeBlocked_first_match_witness :
    isTimeBlocked ⟨2025, 7, 1, 10, 0, 2⟩
      ⟨some [⟨"2025-06-25", "2025-07-05"⟩], none, some ["07-01"], none⟩ =
      { blocked := true, reason := some "on vacation" } :=
  isTimeBlocked_first_match.2 _ _ (by decide) (by decide)

/-- Witness for C4: a page containing the same qualifying event twice
produces exactly one appointment for its external event id. -/
theorem reconciliation_idempotent_witness :
    countId
      (processPage (fun _ => none)
        [⟨some "evt-1", some "confirmed",
            some ⟨some "2025-01-29T10:00:00-05:00", some "America/New_York"⟩,
            some ⟨some "2025-01-29T10:30:00-05:00", some "America/New_York"⟩,
            some [⟨some "lead@example.com", false⟩], none⟩,
         ⟨some "evt-1", some "confirmed",
            some ⟨some "2025-01-29T10:00:00-05:00", some "America/New_York"⟩,
            some ⟨some "2025-01-29T10:30:00-05:00", some "America/New_York"⟩,
            some [⟨some "lead@example.com", false⟩], none⟩] []) "evt-1" = 1 :=
  reconciliation_idempotent.2.2 (fun _ => none) _ [] "evt-1"
    ⟨some "evt-1", some "confirmed",
      some ⟨some "2025-01-29T10:00:00-05:00", some "America/New_York"⟩,
      some ⟨some "2025-01-29T10:30:00-05:00", some "America/New_York"⟩,
      some [⟨some "lead@example.com", false⟩], none⟩
    (by decide) rfl (by decide) (by decide)

/-- Witness for C5: a 410 failure on the second page returns normally
with the stored token cleared. -/
theorem processCalendarChanges_token_semantics_witness :
    processCalendarChangesRun (fun _ => none) (some "stale")
      (([{ items := [], nextSyncToken := none, nextPageToken := some "p2" }] :
          List EventsPage).map Except.ok ++ Except.error ⟨410⟩ :: []) [] =
      (SyncOutcome.ok, none, []) :=
  (processCalendarChanges_token_semantics (fun _ => none) (some "stale") []
    [{ items := [], nextSyncToken := none, nextPageToken := some "p2" }] ⟨410⟩ []
    (by decide)).trans (by decide)

/-- Witness for C6: unrecognised text produces a failure value carrying
the descriptive message. -/
theorem parseDateTime_failure_iff_witness :
    (parseDateTime (fun _ => []) 0 0 "blorp" 0).error =
      some "Could not parse date/time from: \"blorp\"" :=
  (parseDateTime_failure_iff (fun _ => []) 0 0 "blorp" 0).2 (by decide)

/-- Witness for C7: a policy with a present-but-empty rule list is never
blocked for the outside-business-hours reason, even late on a Saturday. -/
theorem businessHours_empty_semantics_witness :
    (isTimeBlocked ⟨2025, 2, 1, 23, 30, 6⟩ ⟨none, none, none, some []⟩).reason ≠
      some "outside business hours" :=
  businessHours_empty_semantics.1 _ _ (Or.inr rfl)

/-- Witness for C8: with the reference Wed 2025-01-29 18:00
America/New_York (after the implied noon), parsing "Wednesday" does
resolve to the following Wednesday, Feb 5 09:00 local (14:00 UTC). -/
theorem parseDateTime_weekday_roll_witness :
    (parseDateTime chronoWednesdayOracle 0 (-300) "Wednesday"
      1738191600000).rangeStart = some 1738764000000 := by
  have h := (parseDateTime_weekday_roll chronoWednesdayOracle 0 (-300) "Wednesday"
    1738191600000 ⟨2025, 1, 29, 12, 0, false⟩ [] (by decide) (by decide) (by decide)
    (by decide) rfl).1
  rw [h]
  decide

/-- Witness for C10: an instant on the last day of a vacation range is
blocked. -/
theorem isTimeBlocked_inclusive_range_endpoints_witness :
    (isTimeBlocked ⟨2025, 8, 10, 9, 0, 0⟩
      ⟨some [⟨"2025-08-01", "2025-08-10"⟩], none, none, none⟩).blocked = true :=
  isTimeBlocked_inclusive_range_endpoints.1 _ _ ⟨"2025-08-01", "2025-08-10"⟩
    (by decide) (by decide) (Or.inr (by decide))

end CalendarService
